import Mathlib

/-!
Shallow embedding of `src/lib/token.ts` (multi-chain balance aggregator).

Modelling conventions:
- JavaScript numbers are modelled as exact rationals (`ℚ`); double rounding
  and exponential `toFixed` notation for magnitudes ≥ 1e21 are outside the
  model.  A JavaScript value that may be either a number or a string is
  modelled by the sum type `JsValue`.
- Provider calls (Alchemy SDK, ethers) are oracles collected in a
  `Providers` structure; a call that may reject is an `Except String` value.
- `async`/`await` data flow is modelled with the `Except` monad; the
  issue/await ordering of the calls is modelled separately by explicit
  event traces (`FetchEvent`).
-/

namespace CreditSource

/-- The `Chain` union type of `token.ts`. -/
inductive Chain where
  | Ethereum
  | Arbitrum
  | Optimism
  | Avalanche
  deriving DecidableEq, Repr

/-- A JavaScript value that is either a number (modelled exactly as a
rational) or a string. -/
inductive JsValue where
  | num (q : ℚ)
  | str (s : String)
  deriving DecidableEq, Repr

/-- The `TokenContractAddress` type of `token.ts`: a contract address paired
with its chain. -/
structure TokenContractAddress where
  address : String
  chain : Chain
  deriving DecidableEq, Repr

/-- The `AccountCurrentBalance` type of `token.ts`: one formatted native
balance string per supported chain. -/
structure AccountCurrentBalance where
  eth : String
  arb : String
  op : String
  avax : String
  deriving DecidableEq, Repr

/-- The `AccountCurrentTokenBalance` type of `token.ts`.  The source declares
`balance : number`; the embedding uses `JsValue` so that the value actually
produced by each code path (number or string) is observable. -/
structure AccountCurrentTokenBalance where
  tokenAddress : String
  chain : Chain
  balance : JsValue
  deriving DecidableEq, Repr

/-- One entry of an Alchemy `TokenBalancesResponse`: the contract address and
the raw smallest-unit balance, `none` when the provider reports `null`. -/
structure TokenBalanceEntry where
  contractAddress : String
  tokenBalance : Option Nat
  deriving DecidableEq, Repr

/-- The Alchemy `TokenBalancesResponse` shape used by `token.ts`. -/
structure TokenBalancesResponse where
  tokenBalances : List TokenBalanceEntry
  deriving DecidableEq, Repr

/-- The provider oracles of `token.ts`: the three Alchemy clients
(`alchemyEthereum`, `alchemyArbitrum`, `alchemyOptimism`) and the Avalanche
JSON-RPC provider.  `avaxContract user addr` models the pair of calls
`contract.balanceOf(user)` / `contract.decimals()` on contract `addr`,
returning the smallest-unit balance and the token's decimals. -/
structure Providers where
  ethGetBalance : String → Nat
  arbGetBalance : String → Nat
  optGetBalance : String → Nat
  avaxGetBalance : String → Nat
  ethGetTokenBalances : String → List String → Except String TokenBalancesResponse
  arbGetTokenBalances : String → List String → Except String TokenBalancesResponse
  optGetTokenBalances : String → List String → Except String TokenBalancesResponse
  avaxContract : String → String → Except String (Nat × Nat)

/-- The character for decimal digit `d % 10`. -/
def digitChar (d : Nat) : Char :=
  Char.ofNat (48 + d % 10)

/-- Base-10 digit characters, most significant first, by structural
recursion on a fuel argument (enough fuel always supplied by `natDigits`). -/
def natDigitsAux : Nat → Nat → List Char
  | 0, _ => []
  | fuel + 1, n =>
    if n < 10 then [digitChar n]
    else natDigitsAux fuel (n / 10) ++ [digitChar (n % 10)]

/-- Base-10 digit characters of `n`, most significant first (`['0']` for 0). -/
def natDigits (n : Nat) : List Char :=
  natDigitsAux (n + 1) n

/-- Decimal string of a natural number. -/
def natToString (n : Nat) : String :=
  String.mk (natDigits n)

/-- The exact rational value of `parseFloat(utils.formatEther(wei))`:
`wei / 10^18` (the double is modelled as exact). -/
def formatEtherNum (wei : Nat) : ℚ :=
  mkRat wei (10 ^ 18)

/-- The five fractional digit characters of `m % 100000`, used by
`toFixed5`. -/
def frac5 (m : Nat) : String :=
  String.mk [digitChar (m / 10000), digitChar (m / 1000), digitChar (m / 100),
    digitChar (m / 10), digitChar m]

/-- JavaScript `x.toFixed(5)` for a nonnegative number `q`: round half up at
the fifth decimal and print with exactly five fractional digits.  The
rounded scaled value `⌊q * 100000 + 1/2⌋` is computed directly on the
numerator and denominator. -/
def toFixed5 (q : ℚ) : String :=
  let n : Nat := ((q.num * 200000 + q.den) / (2 * q.den)).toNat
  natToString (n / 100000) ++ "." ++ frac5 (n % 100000)

/-- Left-pad a digit list with zeros to length `k`. -/
def padLeftZeros (l : List Char) (k : Nat) : List Char :=
  List.replicate (k - l.length) '0' ++ l

/-- Drop trailing zero characters. -/
def dropTrailingZeros (l : List Char) : List Char :=
  (l.reverse.dropWhile (fun c => c = '0')).reverse

/-- `ethers.utils.formatUnits value decimals`: the decimal string
`value / 10^decimals`, fractional part zero-padded then trailing zeros
trimmed, keeping at least one fractional digit. -/
def formatUnits (value decimals : Nat) : String :=
  let mult := 10 ^ decimals
  let whole := value / mult
  let fracDigits := dropTrailingZeros (padLeftZeros (natDigits (value % mult)) decimals)
  let fracDigits := if fracDigits = [] then ['0'] else fracDigits
  natToString whole ++ "." ++ String.mk fracDigits

/-- `getBalance` of `token.ts`: fetch each network's native balance for the
account and format it via `parseFloat(utils.formatEther(·)).toFixed(5)`. -/
def getBalance (p : Providers) (userAddress : String) : AccountCurrentBalance :=
  { eth := toFixed5 (formatEtherNum (p.ethGetBalance userAddress))
    arb := toFixed5 (formatEtherNum (p.arbGetBalance userAddress))
    op := toFixed5 (formatEtherNum (p.optGetBalance userAddress))
    avax := toFixed5 (formatEtherNum (p.avaxGetBalance userAddress)) }

/-- `processTokenBalancesResponse` of `token.ts`: drop entries whose raw
balance is `null`, then map each survivor to a record tagged with the given
chain, converting via `parseFloat(utils.formatEther(tokenBalance))`. -/
def processTokenBalancesResponse (tokenBalances : TokenBalancesResponse)
    (chain : Chain) : List AccountCurrentTokenBalance :=
  (tokenBalances.tokenBalances.filter (fun b => b.tokenBalance.isSome)).map
    (fun b =>
      { tokenAddress := b.contractAddress
        chain := chain
        balance := JsValue.num (formatEtherNum (b.tokenBalance.getD 0)) })

/-- The `dataPromises` array of `getAvalancheTokenBalances`: one independent
request/response per contract address, each built from that contract's own
`balanceOf`/`decimals` calls and formatted with `ethers.utils.formatUnits`
(note: the produced `balance` is a string). -/
def avalancheDataPromises (p : Providers) (userAddress : String)
    (tokenContractAddresses : List String) :
    List (Except String AccountCurrentTokenBalance) :=
  tokenContractAddresses.map (fun tokenContractAddress =>
    match p.avaxContract userAddress tokenContractAddress with
    | .error e => .error e
    | .ok (balance, decimals) =>
        .ok { tokenAddress := tokenContractAddress
              chain := Chain.Avalanche
              balance := JsValue.str (formatUnits balance decimals) })

/-- `Promise.all`: succeeds with the list of all results when every promise
succeeds, otherwise fails (the model reports the first rejection in list
order; `getTokenBalance` discards the rejection value anyway). -/
def promiseAll : List (Except String AccountCurrentTokenBalance) →
    Except String (List AccountCurrentTokenBalance)
  | [] => .ok []
  | .error e :: _ => .error e
  | .ok a :: rest =>
    match promiseAll rest with
    | .error e => .error e
    | .ok l => .ok (a :: l)

/-- `getAvalancheTokenBalances` of `token.ts`: build one promise per contract
and `Promise.all` them. -/
def getAvalancheTokenBalances (p : Providers) (userAddress : String)
    (tokenContractAddresses : List String) :
    Except String (List AccountCurrentTokenBalance) :=
  promiseAll (avalancheDataPromises p userAddress tokenContractAddresses)

/-- The per-chain partition at the top of `getTokenBalance`:
`chainTokens c tcs` is the source's
`tcs.filter((a) => a.chain === c).map((a) => a.address)`
(`ethereumTokens`, `arbitrumTokens`, `optimismTokens`, `avalancheTokens` are
its four instances). -/
def chainTokens (c : Chain) (tcs : List TokenContractAddress) : List String :=
  (tcs.filter (fun a => a.chain = c)).map (fun a => a.address)

/-- The provider interaction inside one chain's guarded block of
`getTokenBalance`: the Alchemy batched call followed by
`processTokenBalancesResponse` for Ethereum/Arbitrum/Optimism, and
`getAvalancheTokenBalances` for Avalanche. -/
def rawChainFetch (p : Providers) (userAddress : String) (c : Chain)
    (tokens : List String) : Except String (List AccountCurrentTokenBalance) :=
  match c with
  | .Ethereum =>
    match p.ethGetTokenBalances userAddress tokens with
    | .ok r => .ok (processTokenBalancesResponse r .Ethereum)
    | .error e => .error e
  | .Arbitrum =>
    match p.arbGetTokenBalances userAddress tokens with
    | .ok r => .ok (processTokenBalancesResponse r .Arbitrum)
    | .error e => .error e
  | .Optimism =>
    match p.optGetTokenBalances userAddress tokens with
    | .ok r => .ok (processTokenBalancesResponse r .Optimism)
    | .error e => .error e
  | .Avalanche => getAvalancheTokenBalances p userAddress tokens

/-- One `if (tokens.length > 0) { try ... catch { throw new Error('Not valid
contract_addresses') } }` block of `getTokenBalance`: skipped when the
chain's sub-list is empty, and any provider failure is re-raised with the
generic constant message (the original cause is only logged). -/
def chainBlock (p : Providers) (userAddress : String)
    (tcs : List TokenContractAddress) (c : Chain) :
    Except String (List AccountCurrentTokenBalance) :=
  let tokens := chainTokens c tcs
  if 0 < tokens.length then
    match rawChainFetch p userAddress c tokens with
    | .ok data => .ok data
    | .error _ => .error "Not valid contract_addresses"
  else .ok []

/-- `getTokenBalance` of `token.ts`: partition the references by chain, run
the four guarded chain blocks in order (Ethereum, Arbitrum, Optimism,
Avalanche), accumulating `result = [...result, ...data]`. -/
def getTokenBalance (p : Providers) (userAddress : String)
    (tokenContractAddresses : List TokenContractAddress) :
    Except String (List AccountCurrentTokenBalance) :=
  match chainBlock p userAddress tokenContractAddresses .Ethereum with
  | .error e => .error e
  | .ok d1 =>
    match chainBlock p userAddress tokenContractAddresses .Arbitrum with
    | .error e => .error e
    | .ok d2 =>
      match chainBlock p userAddress tokenContractAddresses .Optimism with
      | .error e => .error e
      | .ok d3 =>
        match chainBlock p userAddress tokenContractAddresses .Avalanche with
        | .error e => .error e
        | .ok d4 => .ok (((([] ++ d1) ++ d2) ++ d3) ++ d4)

/-- The chains whose guarded block in `getTokenBalance` issues a provider
call for the given input: a chain appears exactly when its sub-list is
nonempty. -/
def providerCalls (tcs : List TokenContractAddress) : List Chain :=
  (if 0 < (chainTokens .Ethereum tcs).length then [Chain.Ethereum] else []) ++
  (if 0 < (chainTokens .Arbitrum tcs).length then [Chain.Arbitrum] else []) ++
  (if 0 < (chainTokens .Optimism tcs).length then [Chain.Optimism] else []) ++
  (if 0 < (chainTokens .Avalanche tcs).length then [Chain.Avalanche] else [])

/-- An observable scheduling event: a provider fetch for a chain is issued,
or its response is awaited to completion. -/
inductive FetchEvent where
  | issue (c : Chain)
  | complete (c : Chain)
  deriving DecidableEq, Repr

/-- The trace of a plain `await call()`: the call is issued and its
completion awaited before control continues. -/
def awaitCall (c : Chain) : List FetchEvent :=
  [.issue c, .complete c]

/-- The success-path trace of `getBalance`: four `await` statements one after
another, each completing before the next is issued. -/
def getBalanceEvents : List FetchEvent :=
  awaitCall .Ethereum ++ awaitCall .Arbitrum ++ awaitCall .Optimism ++
    awaitCall .Avalanche

/-- The success-path chain-level trace of `getTokenBalance`: each nonempty
chain's block performs its own `await` before the next block starts. -/
def getTokenBalanceEvents (tcs : List TokenContractAddress) : List FetchEvent :=
  (if 0 < (chainTokens .Ethereum tcs).length then awaitCall .Ethereum else []) ++
  (if 0 < (chainTokens .Arbitrum tcs).length then awaitCall .Arbitrum else []) ++
  (if 0 < (chainTokens .Optimism tcs).length then awaitCall .Optimism else []) ++
  (if 0 < (chainTokens .Avalanche tcs).length then awaitCall .Avalanche else [])

/-- The per-contract trace of the Avalanche fallback path: `map` creates
every contract's promise first, then `Promise.all` awaits them jointly. -/
def avalancheFallbackEvents (addrs : List String) : List FetchEvent :=
  addrs.map (fun _ => FetchEvent.issue .Avalanche) ++
    addrs.map (fun _ => FetchEvent.complete .Avalanche)

/-- Whether an event is an issue event. -/
def isIssue : FetchEvent → Bool
  | .issue _ => true
  | .complete _ => false

/-- A trace is jointly awaited when every issue precedes every completion:
after the first completion no further fetch is issued. -/
def jointlyAwaited (es : List FetchEvent) : Bool :=
  (es.dropWhile isIssue).all (fun e => !(isIssue e))

/-- `atMostOneInFlight n es`: scanning `es` with `n` fetches currently in
flight, at no point is a fetch issued while another is still pending. -/
def atMostOneInFlight : Nat → List FetchEvent → Bool
  | _, [] => true
  | n, FetchEvent.issue _ :: es => decide (n = 0) && atMostOneInFlight (n + 1) es
  | n, FetchEvent.complete _ :: es => atMostOneInFlight (n - 1) es

/-- A formatted balance string: a nonempty all-digit integer part, a dot,
and exactly five digit characters. -/
def fiveFracDigits (s : String) : Prop :=
  ∃ a b : String, s = a ++ "." ++ b ∧ b.length = 5 ∧
    (∀ c ∈ b.toList, c.isDigit = true) ∧ 0 < a.length ∧
    (∀ c ∈ a.toList, c.isDigit = true)

/-- A batched token-balance oracle is well formed when a successful response
reports exactly the requested contract addresses, in request order (the
Alchemy API's documented behaviour). -/
def RespMatches
    (call : String → List String → Except String TokenBalancesResponse) : Prop :=
  ∀ u addrs r, call u addrs = .ok r →
    r.tokenBalances.map (fun b => b.contractAddress) = addrs

/-- Position of a chain in the fixed processing order of `getTokenBalance`. -/
def chainIdx : Chain → Nat
  | .Ethereum => 0
  | .Arbitrum => 1
  | .Optimism => 2
  | .Avalanche => 3

/-- A concrete provider assignment for evaluating the model: every native
balance is `10^18` smallest units, every batched token call echoes the
requested addresses with raw balance `10^18`, and every Avalanche contract
reports balance `10^18` with 18 decimals. -/
def echoProviders : Providers :=
  { ethGetBalance := fun _ => 10 ^ 18
    arbGetBalance := fun _ => 10 ^ 18
    optGetBalance := fun _ => 10 ^ 18
    avaxGetBalance := fun _ => 10 ^ 18
    ethGetTokenBalances := fun _ addrs =>
      .ok ⟨addrs.map (fun a => ⟨a, some (10 ^ 18)⟩)⟩
    arbGetTokenBalances := fun _ addrs =>
      .ok ⟨addrs.map (fun a => ⟨a, some (10 ^ 18)⟩)⟩
    optGetTokenBalances := fun _ addrs =>
      .ok ⟨addrs.map (fun a => ⟨a, some (10 ^ 18)⟩)⟩
    avaxContract := fun _ _ => .ok (10 ^ 18, 18) }

/-- A failing Ethereum batched call, other providers as in `echoProviders`. -/
def ethFailProviders : Providers :=
  { echoProviders with ethGetTokenBalances := fun _ _ => .error "boom" }

/-- Providers where the Avalanche contract `0xA` rejects and every other
contract behaves as in `echoProviders`. -/
def avaxPartialFailProviders : Providers :=
  { echoProviders with
    avaxContract := fun _ addr =>
      if addr = "0xA" then .error "boom" else .ok (10 ^ 18, 18) }

theorem digitChar_isDigit (d : Nat) : (digitChar d).isDigit = true := by
  have h : d % 10 < 10 := Nat.mod_lt _ (by omega)
  unfold digitChar
  set k := d % 10 with hk
  interval_cases k <;> decide

theorem natDigitsAux_all_digit (fuel : Nat) :
    ∀ n c, c ∈ natDigitsAux fuel n → c.isDigit = true := by
  induction fuel with
  | zero => intro n c hc; simp [natDigitsAux] at hc
  | succ fuel ih =>
    intro n c hc
    by_cases h : n < 10
    · simp [natDigitsAux, h] at hc
      subst hc
      exact digitChar_isDigit n
    · simp [natDigitsAux, h] at hc
      rcases hc with hc | hc
      · exact ih _ _ hc
      · subst hc; exact digitChar_isDigit _

theorem natDigits_all_digit (n : Nat) : ∀ c ∈ natDigits n, c.isDigit = true :=
  fun c hc => natDigitsAux_all_digit (n + 1) n c hc

theorem natDigits_ne_nil (n : Nat) : natDigits n ≠ [] := by
  unfold natDigits natDigitsAux
  by_cases h : n < 10 <;> simp [h]

theorem toFixed5_fiveFracDigits (q : ℚ) : fiveFracDigits (toFixed5 q) := by
  refine ⟨natToString (((q.num * 200000 + q.den) / (2 * q.den)).toNat / 100000),
    frac5 (((q.num * 200000 + q.den) / (2 * q.den)).toNat % 100000),
    rfl, rfl, ?_, ?_, ?_⟩
  · intro c hc
    simp [frac5, String.toList] at hc
    rcases hc with rfl | rfl | rfl | rfl | rfl <;> exact digitChar_isDigit _
  · have := natDigits_ne_nil (((q.num * 200000 + q.den) / (2 * q.den)).toNat / 100000)
    simpa [natToString, String.length] using List.length_pos.mpr this
  · intro c hc
    simp only [natToString, String.toList] at hc
    exact natDigits_all_digit _ c hc

/-- Claim C2: for every raw provider response and chain,
`processTokenBalancesResponse` drops exactly the entries whose raw balance is
`null` (they are not represented as zero records), every surviving entry is
tagged with the given chain, and the surviving contract addresses appear in
the same order as in the input sequence. -/
theorem processTokenBalancesResponse_drops_null_keeps_order
    (tb : TokenBalancesResponse) (c : Chain) :
    ((processTokenBalancesResponse tb c).map (fun e => e.tokenAddress) =
      (tb.tokenBalances.filter (fun b => b.tokenBalance.isSome)).map
        (fun b => b.contractAddress)) ∧
    (∀ e ∈ processTokenBalancesResponse tb c, e.chain = c) ∧
    (processTokenBalancesResponse tb c).length =
      tb.tokenBalances.countP (fun b => b.tokenBalance.isSome) := by
  refine ⟨?_, ?_, ?_⟩
  · simp [processTokenBalancesResponse, List.map_map, Function.comp]
  · intro e he
    simp [processTokenBalancesResponse] at he
    obtain ⟨b, _, rfl⟩ := he
    rfl
  · simp [processTokenBalancesResponse, List.countP_eq_length_filter]

/-- Claim C3: for every account (and any provider-reported balances,
including zero), `getBalance` returns a record with exactly the four fields
`eth`, `arb`, `op`, `avax` — the `AccountCurrentBalance` shape — and each
field is a decimal string with exactly 5 fractional digits. -/
theorem getBalance_entries_five_frac_digits (p : Providers) (u : String) :
    getBalance p u =
      { eth := (getBalance p u).eth, arb := (getBalance p u).arb,
        op := (getBalance p u).op, avax := (getBalance p u).avax } ∧
    fiveFracDigits (getBalance p u).eth ∧ fiveFracDigits (getBalance p u).arb ∧
    fiveFracDigits (getBalance p u).op ∧ fiveFracDigits (getBalance p u).avax :=
  ⟨rfl, toFixed5_fiveFracDigits _, toFixed5_fiveFracDigits _,
    toFixed5_fiveFracDigits _, toFixed5_fiveFracDigits _⟩

/-- Claim C5 (failing evaluation): on the Avalanche path the `balance` field
of a returned record is the string produced by `ethers.utils.formatUnits`,
not a number, although the declared result type `AccountCurrentTokenBalance`
says `balance : number`.  At the concrete input below the call succeeds and
yields the string `"1.0"`, which is distinct from every numeric value. -/
theorem avalanche_balance_is_string :
    getTokenBalance echoProviders "0xUser" [⟨"0xB", .Avalanche⟩] =
      .ok [⟨"0xB", .Avalanche, JsValue.str "1.0"⟩] ∧
    ∀ q : ℚ, JsValue.str "1.0" ≠ JsValue.num q := by
  refine ⟨rfl, ?_⟩
  intro q h
  exact JsValue.noConfusion h

/-- Claim C9: a smallest-unit balance of `10^18` with 18-digit precision
converts to exactly the number `1` in the token path
(`processTokenBalancesResponse`), and to the string `"1.00000"` in the
native-balance path (`getBalance`, here with every native balance equal to
`10^18` smallest units). -/
theorem tenPow18_conversion_exact :
    processTokenBalancesResponse ⟨[⟨"0xT", some (10 ^ 18)⟩]⟩ .Ethereum =
      [⟨"0xT", .Ethereum, JsValue.num 1⟩] ∧
    getBalance echoProviders "0xUser" =
      ⟨"1.00000", "1.00000", "1.00000", "1.00000"⟩ := by
  constructor <;> decide

theorem jointlyAwaited_of_split (xs ys : List FetchEvent)
    (hx : ∀ e ∈ xs, isIssue e = true) (hy : ∀ e ∈ ys, isIssue e = false) :
    jointlyAwaited (xs ++ ys) = true := by
  unfold jointlyAwaited
  induction xs with
  | nil =>
    simp only [List.nil_append]
    cases ys with
    | nil => rfl
    | cons y ys =>
      rw [List.dropWhile_cons_of_neg (by simp [hy y (List.mem_cons_self y ys)])]
      simp only [List.all_eq_true]
      intro e he
      simp [hy e he]
  | cons x xs ih =>
    rw [List.cons_append,
      List.dropWhile_cons_of_pos (by simp [hx x (List.mem_cons_self x xs)])]
    exact ih (fun e he => hx e (List.mem_cons_of_mem x he))

/-- Claim C6 (counterexample): neither `getBalance` nor `getTokenBalance`
issues its per-chain fetches before awaiting: in both traces a fetch
completes before the next one is issued, so the fetches are not jointly
awaited (here with a two-chain token input). -/
theorem fetches_not_jointly_awaited_cx :
    jointlyAwaited getBalanceEvents = false ∧
    jointlyAwaited
      (getTokenBalanceEvents [⟨"0xA", .Ethereum⟩, ⟨"0xB", .Arbitrum⟩]) = false := by
  constructor <;> decide

/-- Claim C6 (amended): `getBalance` awaits each chain's adapter one after
another (at most one native-balance fetch is ever in flight), and
`getTokenBalance` likewise awaits each chain's batch sequentially; only the
Avalanche fallback path issues its per-contract fetches first and then
jointly awaits them. -/
theorem fetches_awaited_sequentially :
    atMostOneInFlight 0 getBalanceEvents = true ∧
    (∀ tcs, atMostOneInFlight 0 (getTokenBalanceEvents tcs) = true) ∧
    (∀ addrs, jointlyAwaited (avalancheFallbackEvents addrs) = true) := by
  refine ⟨by decide, ?_, ?_⟩
  · intro tcs
    unfold getTokenBalanceEvents
    split_ifs <;> decide
  · intro addrs
    unfold avalancheFallbackEvents
    apply jointlyAwaited_of_split
    · intro e he
      simp at he
      obtain ⟨_, _, rfl⟩ := he
      rfl
    · intro e he
      simp at he
      obtain ⟨_, _, rfl⟩ := he
      rfl

/-- Claim C4: on the Avalanche fallback path every contract gets its own
promise (`dataPromises` has one entry per requested contract, whatever the
providers answer), and the i-th promise's outcome is a function of that
contract's own `balanceOf`/`decimals` responses alone: two provider
assignments that agree on contract `a` give `a`'s promise the same outcome,
however the sibling contracts' requests fail. -/
theorem avalanche_contract_requests_independent (p q : Providers) (u : String)
    (addrs : List String) (i : Nat) (a : String)
    (ha : addrs[i]? = some a)
    (hpq : p.avaxContract u a = q.avaxContract u a) :
    (avalancheDataPromises p u addrs).length = addrs.length ∧
    (avalancheDataPromises p u addrs)[i]? = (avalancheDataPromises q u addrs)[i]? := by
  constructor
  · simp [avalancheDataPromises]
  · simp [avalancheDataPromises, List.getElem?_map, ha, hpq]

/-- Witness for C4: with `avaxPartialFailProviders` the contract `0xA`
rejects while in `echoProviders` it succeeds, yet the sibling contract
`0xB`'s promise (position 1) is unaffected. -/
theorem avalanche_contract_requests_independent_app :
    (avalancheDataPromises echoProviders "u" ["0xA", "0xB"]).length = 2 ∧
    (avalancheDataPromises echoProviders "u" ["0xA", "0xB"])[1]? =
      (avalancheDataPromises avaxPartialFailProviders "u" ["0xA", "0xB"])[1]? :=
  avalanche_contract_requests_independent echoProviders avaxPartialFailProviders
    "u" ["0xA", "0xB"] 1 "0xB" rfl rfl

theorem chainBlock_error_eq (p : Providers) (u : String)
    (tcs : List TokenContractAddress) (c : Chain) (e : String)
    (h : chainBlock p u tcs c = .error e) : e = "Not valid contract_addresses" := by
  simp only [chainBlock] at h
  split_ifs at h
  split at h
  · exact Except.noConfusion h
  · exact (Except.error.inj h).symm

/-- Claim C1: whenever some chain's sub-batch is nonempty and its provider
interaction fails, `getTokenBalance` fails with exactly the generic message
`"Not valid contract_addresses"` — whatever the underlying cause `e` was —
and returns no partial result (the result is an error, carrying no records
from chains whose fetch already succeeded). -/
theorem getTokenBalance_chain_failure_generic (p : Providers) (u : String)
    (tcs : List TokenContractAddress) (c : Chain)
    (hne : 0 < (chainTokens c tcs).length)
    (hfail : ∃ e, rawChainFetch p u c (chainTokens c tcs) = .error e) :
    getTokenBalance p u tcs = .error "Not valid contract_addresses" := by
  obtain ⟨e, he⟩ := hfail
  have hc : chainBlock p u tcs c = .error "Not valid contract_addresses" := by
    simp [chainBlock, he, hne]
  unfold getTokenBalance
  cases c with
  | Ethereum => simp [hc]
  | Arbitrum =>
    rcases h1 : chainBlock p u tcs .Ethereum with ⟨e1⟩ | ⟨d1⟩
    · simp [h1, chainBlock_error_eq p u tcs .Ethereum e1 h1]
    · simp [h1, hc]
  | Optimism =>
    rcases h1 : chainBlock p u tcs .Ethereum with ⟨e1⟩ | ⟨d1⟩
    · simp [h1, chainBlock_error_eq p u tcs .Ethereum e1 h1]
    · rcases h2 : chainBlock p u tcs .Arbitrum with ⟨e2⟩ | ⟨d2⟩
      · simp [h1, h2, chainBlock_error_eq p u tcs .Arbitrum e2 h2]
      · simp [h1, h2, hc]
  | Avalanche =>
    rcases h1 : chainBlock p u tcs .Ethereum with ⟨e1⟩ | ⟨d1⟩
    · simp [h1, chainBlock_error_eq p u tcs .Ethereum e1 h1]
    · rcases h2 : chainBlock p u tcs .Arbitrum with ⟨e2⟩ | ⟨d2⟩
      · simp [h1, h2, chainBlock_error_eq p u tcs .Arbitrum e2 h2]
      · rcases h3 : chainBlock p u tcs .Optimism with ⟨e3⟩ | ⟨d3⟩
        · simp [h1, h2, h3, chainBlock_error_eq p u tcs .Optimism e3 h3]
        · simp [h1, h2, h3, hc]

/-- Witness for C1: the Ethereum batched call rejects with cause `"boom"`,
and the whole call surfaces only the generic message. -/
theorem getTokenBalance_chain_failure_generic_app :
    getTokenBalance ethFailProviders "u" [⟨"0xA", .Ethereum⟩] =
      .error "Not valid contract_addresses" :=
  getTokenBalance_chain_failure_generic ethFailProviders "u"
    [⟨"0xA", .Ethereum⟩] .Ethereum (by decide) ⟨"boom", rfl⟩

/-- Claim C8: the per-chain partition of `getTokenBalance` preserves the
relative input order within each chain (each chain's sub-list, re-tagged
with its chain, is a sublist of the input), a chain absent from the input
triggers no provider call for that chain, and an empty input yields an empty
output with no provider calls at all. -/
theorem chain_partition_order_and_no_calls (p : Providers) (u : String)
    (c : Chain) (tcs : List TokenContractAddress) :
    ((chainTokens c tcs).map (fun a => TokenContractAddress.mk a c)).Sublist tcs ∧
    ((∀ t ∈ tcs, t.chain ≠ c) → c ∉ providerCalls tcs) ∧
    getTokenBalance p u [] = .ok [] ∧ providerCalls [] = [] := by
  refine ⟨?_, ?_, ?_, rfl⟩
  · have hmap : (chainTokens c tcs).map (fun a => TokenContractAddress.mk a c) =
        tcs.filter (fun t => t.chain = c) := by
      have hpt : ∀ t ∈ tcs.filter (fun t => t.chain = c),
          (⟨t.address, c⟩ : TokenContractAddress) = t := by
        intro t ht
        have hc : t.chain = c := by simpa using (List.mem_filter.mp ht).2
        cases t
        simp_all
      unfold chainTokens
      rw [List.map_map]
      exact (List.map_congr_left hpt).trans (List.map_id _)
    rw [hmap]
    exact List.filter_sublist tcs
  · intro h
    have hempty : chainTokens c tcs = [] := by
      have : tcs.filter (fun t => t.chain = c) = [] := by
        rw [List.filter_eq_nil_iff]
        intro t ht
        simpa using h t ht
      simp [chainTokens, this]
    intro hmem
    cases c <;>
      (simp only [providerCalls, hempty, List.length_nil, List.mem_append] at hmem;
       split_ifs at hmem <;> simp_all)
  · simp [getTokenBalance, chainBlock, chainTokens]

/-- Witness for C8: with no Avalanche reference in the input, no Avalanche
provider call is issued. -/
theorem chain_partition_order_and_no_calls_app :
    Chain.Avalanche ∉ providerCalls [⟨"0xA", .Ethereum⟩] :=
  (chain_partition_order_and_no_calls echoProviders "u" .Avalanche
    [⟨"0xA", .Ethereum⟩]).2.1 (by decide)

theorem mem_process_chain (tb : TokenBalancesResponse) (c : Chain) :
    ∀ e ∈ processTokenBalancesResponse tb c, e.chain = c := by
  intro e he
  simp [processTokenBalancesResponse] at he
  obtain ⟨b, _, rfl⟩ := he
  rfl

theorem promiseAll_ok (ps : List (Except String AccountCurrentTokenBalance))
    (l : List AccountCurrentTokenBalance) (h : promiseAll ps = .ok l) :
    ps = l.map Except.ok := by
  induction ps generalizing l with
  | nil =>
    simp only [promiseAll] at h
    injection h with h'
    subst h'
    rfl
  | cons x ps ih =>
    cases x with
    | error e => simp [promiseAll] at h
    | ok a =>
      simp only [promiseAll] at h
      split at h
      · exact Except.noConfusion h
      · rename_i l2 heq
        injection h with h'
        subst h'
        simp [ih l2 heq]

theorem avax_ok_spec (p : Providers) (u : String) :
    ∀ (addrs : List String) (l : List AccountCurrentTokenBalance),
      getAvalancheTokenBalances p u addrs = .ok l →
      l.map (fun e => e.tokenAddress) = addrs ∧ ∀ e ∈ l, e.chain = .Avalanche := by
  have key : ∀ (addrs : List String) (l : List AccountCurrentTokenBalance),
      avalancheDataPromises p u addrs = l.map Except.ok →
      l.map (fun e => e.tokenAddress) = addrs ∧ ∀ e ∈ l, e.chain = .Avalanche := by
    intro addrs
    induction addrs with
    | nil =>
      intro l h
      cases l with
      | nil => simp
      | cons x l2 => simp [avalancheDataPromises] at h
    | cons a rest ih =>
      intro l h
      cases l with
      | nil => simp [avalancheDataPromises] at h
      | cons x l2 =>
        simp only [avalancheDataPromises, List.map_cons, List.cons.injEq] at h
        obtain ⟨hx, hrest⟩ := h
        have hih := ih l2 hrest
        cases hpa : p.avaxContract u a with
        | error e => rw [hpa] at hx; exact Except.noConfusion hx
        | ok bd =>
          obtain ⟨bal, dec⟩ := bd
          rw [hpa] at hx
          injection hx with hx'
          constructor
          · simp [← hx', hih.1]
          · intro e he
            rcases List.mem_cons.mp he with rfl | he2
            · rw [← hx']
            · exact hih.2 e he2
  intro addrs l h
  exact key addrs l (promiseAll_ok _ _ h)

theorem rawChainFetch_ok_chains (p : Providers) (u : String) (c : Chain)
    (toks : List String) (d : List AccountCurrentTokenBalance)
    (h : rawChainFetch p u c toks = .ok d) : ∀ e ∈ d, e.chain = c := by
  cases c with
  | Avalanche => exact (avax_ok_spec p u toks d h).2
  | Ethereum =>
    simp only [rawChainFetch] at h
    split at h
    · rename_i r hr
      injection h with h'
      subst h'
      exact mem_process_chain r .Ethereum
    · exact Except.noConfusion h
  | Arbitrum =>
    simp only [rawChainFetch] at h
    split at h
    · rename_i r hr
      injection h with h'
      subst h'
      exact mem_process_chain r .Arbitrum
    · exact Except.noConfusion h
  | Optimism =>
    simp only [rawChainFetch] at h
    split at h
    · rename_i r hr
      injection h with h'
      subst h'
      exact mem_process_chain r .Optimism
    · exact Except.noConfusion h

theorem chainBlock_ok_chains (p : Providers) (u : String)
    (tcs : List TokenContractAddress) (c : Chain)
    (d : List AccountCurrentTokenBalance) (h : chainBlock p u tcs c = .ok d) :
    ∀ e ∈ d, e.chain = c := by
  simp only [chainBlock] at h
  split_ifs at h
  · split at h
    · rename_i data heq
      injection h with h'
      subst h'
      exact rawChainFetch_ok_chains p u c _ data heq
    · exact Except.noConfusion h
  · injection h with h'
    subst h'
    intro e he
    exact absurd he (List.not_mem_nil e)

/-- `RespMatchesFor p c`: the batched oracle used for chain `c` is well
formed (no condition for Avalanche, whose fallback path does not use a
batched oracle). -/
def RespMatchesFor (p : Providers) : Chain → Prop
  | .Ethereum => RespMatches p.ethGetTokenBalances
  | .Arbitrum => RespMatches p.arbGetTokenBalances
  | .Optimism => RespMatches p.optGetTokenBalances
  | .Avalanche => True

theorem chainTokens_countP (c : Chain) (tcs : List TokenContractAddress)
    (a : String) :
    (chainTokens c tcs).countP (fun s => decide (s = a)) =
      tcs.countP (fun t => decide (t.address = a ∧ t.chain = c)) := by
  unfold chainTokens
  rw [List.countP_map, List.countP_filter]
  apply List.countP_congr
  intro t _
  simp [Function.comp]

theorem process_countP_le (r : TokenBalancesResponse) (c : Chain) (a : String) :
    (processTokenBalancesResponse r c).countP
        (fun e => decide (e.tokenAddress = a)) ≤
      r.tokenBalances.countP (fun b => decide (b.contractAddress = a)) := by
  simp only [processTokenBalancesResponse]
  rw [List.countP_map, List.countP_filter]
  apply List.countP_mono_left
  intro b _ hb
  rw [Bool.and_eq_true] at hb
  exact hb.1

theorem resp_countP (r : TokenBalancesResponse) (toks : List String) (a : String)
    (hmap : r.tokenBalances.map (fun b => b.contractAddress) = toks) :
    r.tokenBalances.countP (fun b => decide (b.contractAddress = a)) =
      toks.countP (fun s => decide (s = a)) := by
  rw [← hmap, List.countP_map]
  rfl

theorem rawChainFetch_ok_countP (p : Providers) (u : String) (c : Chain)
    (toks : List String) (d : List AccountCurrentTokenBalance) (a : String)
    (hR : RespMatchesFor p c) (h : rawChainFetch p u c toks = .ok d) :
    d.countP (fun e => decide (e.tokenAddress = a)) ≤
      toks.countP (fun s => decide (s = a)) := by
  cases c with
  | Avalanche =>
    have hmap := (avax_ok_spec p u toks d h).1
    rw [← hmap, List.countP_map]
    rfl
  | Ethereum =>
    simp only [rawChainFetch] at h
    split at h
    · rename_i r hr
      injection h with h'
      subst h'
      exact (process_countP_le r .Ethereum a).trans
        (resp_countP r toks a (hR u toks r hr)).le
    · exact Except.noConfusion h
  | Arbitrum =>
    simp only [rawChainFetch] at h
    split at h
    · rename_i r hr
      injection h with h'
      subst h'
      exact (process_countP_le r .Arbitrum a).trans
        (resp_countP r toks a (hR u toks r hr)).le
    · exact Except.noConfusion h
  | Optimism =>
    simp only [rawChainFetch] at h
    split at h
    · rename_i r hr
      injection h with h'
      subst h'
      exact (process_countP_le r .Optimism a).trans
        (resp_countP r toks a (hR u toks r hr)).le
    · exact Except.noConfusion h

theorem chainBlock_ok_countP (p : Providers) (u : String)
    (tcs : List TokenContractAddress) (c : Chain)
    (d : List AccountCurrentTokenBalance) (a : String)
    (hR : RespMatchesFor p c) (h : chainBlock p u tcs c = .ok d) :
    d.countP (fun e => decide (e.tokenAddress = a)) ≤
      tcs.countP (fun t => decide (t.address = a ∧ t.chain = c)) := by
  rw [← chainTokens_countP]
  simp only [chainBlock] at h
  split_ifs at h
  · split at h
    · rename_i data heq
      injection h with h'
      subst h'
      exact rawChainFetch_ok_countP p u c _ data a hR heq
    · exact Except.noConfusion h
  · injection h with h'
    subst h'
    simp

theorem countP_pair_eq (d : List AccountCurrentTokenBalance) (cd : Chain)
    (hchain : ∀ e ∈ d, e.chain = cd) (a : String) (c : Chain) :
    d.countP (fun e => decide (e.tokenAddress = a ∧ e.chain = c)) =
      if c = cd then d.countP (fun e => decide (e.tokenAddress = a)) else 0 := by
  split_ifs with h
  · subst h
    apply List.countP_congr
    intro e he
    simp [hchain e he]
  · rw [List.countP_eq_zero]
    intro e he hcontra
    rw [decide_eq_true_iff] at hcontra
    exact h (hcontra.2.symm.trans (hchain e he))

/-- Claim C7: assuming each batched oracle reports exactly the requested
contract addresses, every output entry's (address, chain) pair occurs in the
input, and each pair occurs in the output at most as often as in the input
(so no duplicates unless the input duplicated the pair). -/
theorem getTokenBalance_output_from_input (p : Providers) (u : String)
    (tcs : List TokenContractAddress) (out : List AccountCurrentTokenBalance)
    (hE : RespMatches p.ethGetTokenBalances)
    (hA : RespMatches p.arbGetTokenBalances)
    (hO : RespMatches p.optGetTokenBalances)
    (hok : getTokenBalance p u tcs = .ok out) :
    (∀ e ∈ out, (⟨e.tokenAddress, e.chain⟩ : TokenContractAddress) ∈ tcs) ∧
    ∀ (a : String) (c : Chain),
      out.countP (fun e => decide (e.tokenAddress = a ∧ e.chain = c)) ≤
        tcs.countP (fun t => decide (t.address = a ∧ t.chain = c)) := by
  unfold getTokenBalance at hok
  cases h1 : chainBlock p u tcs .Ethereum with
  | error e => rw [h1] at hok; exact Except.noConfusion hok
  | ok d1 =>
  rw [h1] at hok
  cases h2 : chainBlock p u tcs .Arbitrum with
  | error e => rw [h2] at hok; exact Except.noConfusion hok
  | ok d2 =>
  rw [h2] at hok
  cases h3 : chainBlock p u tcs .Optimism with
  | error e => rw [h3] at hok; exact Except.noConfusion hok
  | ok d3 =>
  rw [h3] at hok
  cases h4 : chainBlock p u tcs .Avalanche with
  | error e => rw [h4] at hok; exact Except.noConfusion hok
  | ok d4 =>
  rw [h4] at hok
  injection hok with hout
  subst hout
  have key : ∀ (a : String) (c : Chain),
      (((([] ++ d1) ++ d2) ++ d3) ++ d4).countP
          (fun (e : AccountCurrentTokenBalance) =>
            decide (e.tokenAddress = a ∧ e.chain = c)) ≤
        tcs.countP (fun t => decide (t.address = a ∧ t.chain = c)) := by
    intro a c
    have c1 := chainBlock_ok_chains p u tcs .Ethereum d1 h1
    have c2 := chainBlock_ok_chains p u tcs .Arbitrum d2 h2
    have c3 := chainBlock_ok_chains p u tcs .Optimism d3 h3
    have c4 := chainBlock_ok_chains p u tcs .Avalanche d4 h4
    have k1 := chainBlock_ok_countP p u tcs .Ethereum d1 a hE h1
    have k2 := chainBlock_ok_countP p u tcs .Arbitrum d2 a hA h2
    have k3 := chainBlock_ok_countP p u tcs .Optimism d3 a hO h3
    have k4 := chainBlock_ok_countP p u tcs .Avalanche d4 a trivial h4
    simp only [List.nil_append, List.countP_append]
    rw [countP_pair_eq d1 .Ethereum c1 a c, countP_pair_eq d2 .Arbitrum c2 a c,
      countP_pair_eq d3 .Optimism c3 a c, countP_pair_eq d4 .Avalanche c4 a c]
    cases c with
    | Ethereum => simpa using k1
    | Arbitrum => simpa using k2
    | Optimism => simpa using k3
    | Avalanche => simpa using k4
  refine ⟨?_, key⟩
  intro e he
  have hpos : 0 < (((([] ++ d1) ++ d2) ++ d3) ++ d4).countP
      (fun (x : AccountCurrentTokenBalance) =>
        decide (x.tokenAddress = e.tokenAddress ∧ x.chain = e.chain)) :=
    List.countP_pos_iff.mpr ⟨e, he, by simp⟩
  obtain ⟨t, ht, hpt⟩ :=
    List.countP_pos_iff.mp (lt_of_lt_of_le hpos (key e.tokenAddress e.chain))
  rw [decide_eq_true_iff] at hpt
  have heq : (⟨e.tokenAddress, e.chain⟩ : TokenContractAddress) = t := by
    cases t
    simp_all
  rw [heq]
  exact ht

theorem echoRespMatchesEth : RespMatches echoProviders.ethGetTokenBalances := by
  intro u addrs r h
  injection h with h'
  subst h'
  rw [List.map_map]
  exact List.map_id addrs

theorem echoRespMatchesArb : RespMatches echoProviders.arbGetTokenBalances := by
  intro u addrs r h
  injection h with h'
  subst h'
  rw [List.map_map]
  exact List.map_id addrs

theorem echoRespMatchesOpt : RespMatches echoProviders.optGetTokenBalances := by
  intro u addrs r h
  injection h with h'
  subst h'
  rw [List.map_map]
  exact List.map_id addrs

/-- Witness for C7: a successful call at a singleton Ethereum input, with
the count bound instantiated at that pair. -/
theorem getTokenBalance_output_from_input_app :
    ([(⟨"0xA", .Ethereum, JsValue.num 1⟩ : AccountCurrentTokenBalance)]).countP
        (fun e => decide (e.tokenAddress = "0xA" ∧ e.chain = Chain.Ethereum)) ≤
      ([(⟨"0xA", .Ethereum⟩ : TokenContractAddress)]).countP
        (fun t => decide (t.address = "0xA" ∧ t.chain = Chain.Ethereum)) :=
  (getTokenBalance_output_from_input echoProviders "u" [⟨"0xA", .Ethereum⟩]
    [⟨"0xA", .Ethereum, JsValue.num 1⟩] echoRespMatchesEth echoRespMatchesArb
    echoRespMatchesOpt rfl).2 "0xA" .Ethereum

theorem pairwise_le_const (l : List Nat) (k : Nat) (h : ∀ x ∈ l, x = k) :
    l.Pairwise (fun x y => x ≤ y) := by
  induction l with
  | nil => exact List.Pairwise.nil
  | cons a l ih =>
    constructor
    · intro b hb
      rw [h a (List.mem_cons_self a l), h b (List.mem_cons_of_mem a hb)]
    · exact ih (fun x hx => h x (List.mem_cons_of_mem a hx))

theorem pairwise_le_four (l1 l2 l3 l4 : List Nat) (k1 k2 k3 k4 : Nat)
    (h1 : ∀ x ∈ l1, x = k1) (h2 : ∀ x ∈ l2, x = k2) (h3 : ∀ x ∈ l3, x = k3)
    (h4 : ∀ x ∈ l4, x = k4) (h12 : k1 ≤ k2) (h23 : k2 ≤ k3) (h34 : k3 ≤ k4) :
    (l1 ++ l2 ++ l3 ++ l4).Pairwise (fun x y => x ≤ y) := by
  have cross : ∀ (la lb : List Nat) (ka kb : Nat), (∀ x ∈ la, x = ka) →
      (∀ x ∈ lb, x = kb) → ka ≤ kb → ∀ x ∈ la, ∀ y ∈ lb, x ≤ y := by
    intro la lb ka kb ha hb hab x hx y hy
    rw [ha x hx, hb y hy]
    exact hab
  refine List.pairwise_append.mpr ⟨List.pairwise_append.mpr
    ⟨List.pairwise_append.mpr ⟨pairwise_le_const l1 k1 h1,
      pairwise_le_const l2 k2 h2, cross l1 l2 k1 k2 h1 h2 h12⟩,
      pairwise_le_const l3 k3 h3, ?_⟩, pairwise_le_const l4 k4 h4, ?_⟩
  · intro x hx y hy
    rcases List.mem_append.mp hx with hx1 | hx2
    · rw [h1 x hx1, h3 y hy]; exact h12.trans h23
    · rw [h2 x hx2, h3 y hy]; exact h23
  · intro x hx y hy
    rcases List.mem_append.mp hx with hx12 | hx3
    · rcases List.mem_append.mp hx12 with hx1 | hx2
      · rw [h1 x hx1, h4 y hy]; exact (h12.trans h23).trans h34
      · rw [h2 x hx2, h4 y hy]; exact h23.trans h34
    · rw [h3 x hx3, h4 y hy]; exact h34

/-- Claim C10: every successful `getTokenBalance` result is grouped by chain
in the fixed order Ethereum, Arbitrum, Optimism, Avalanche (the chain
positions along the output are monotone), whatever the order of chains in
the input sequence. -/
theorem getTokenBalance_grouped_by_chain_order (p : Providers) (u : String)
    (tcs : List TokenContractAddress) (out : List AccountCurrentTokenBalance)
    (hok : getTokenBalance p u tcs = .ok out) :
    (out.map (fun e => chainIdx e.chain)).Pairwise (fun x y => x ≤ y) := by
  unfold getTokenBalance at hok
  cases h1 : chainBlock p u tcs .Ethereum with
  | error e => rw [h1] at hok; exact Except.noConfusion hok
  | ok d1 =>
  rw [h1] at hok
  cases h2 : chainBlock p u tcs .Arbitrum with
  | error e => rw [h2] at hok; exact Except.noConfusion hok
  | ok d2 =>
  rw [h2] at hok
  cases h3 : chainBlock p u tcs .Optimism with
  | error e => rw [h3] at hok; exact Except.noConfusion hok
  | ok d3 =>
  rw [h3] at hok
  cases h4 : chainBlock p u tcs .Avalanche with
  | error e => rw [h4] at hok; exact Except.noConfusion hok
  | ok d4 =>
  rw [h4] at hok
  injection hok with hout
  subst hout
  have blk : ∀ (c : Chain) (d : List AccountCurrentTokenBalance),
      chainBlock p u tcs c = .ok d →
      ∀ x ∈ d.map (fun e => chainIdx e.chain), x = chainIdx c := by
    intro c d hd x hx
    obtain ⟨e, he, rfl⟩ := List.mem_map.mp hx
    rw [chainBlock_ok_chains p u tcs c d hd e he]
  simp only [List.nil_append, List.map_append]
  exact pairwise_le_four _ _ _ _ 0 1 2 3 (blk .Ethereum d1 h1) (blk .Arbitrum d2 h2)
    (blk .Optimism d3 h3) (blk .Avalanche d4 h4) (by omega) (by omega) (by omega)

/-- Witness for C10: an input listing Avalanche before Ethereum still yields
an output grouped Ethereum first. -/
theorem getTokenBalance_grouped_by_chain_order_app :
    (([(⟨"0xA", .Ethereum, JsValue.num 1⟩ : AccountCurrentTokenBalance),
        ⟨"0xB", .Avalanche, JsValue.str "1.0"⟩].map
      (fun e => chainIdx e.chain)).Pairwise (fun x y => x ≤ y)) :=
  getTokenBalance_grouped_by_chain_order echoProviders "u"
    [⟨"0xB", .Avalanche⟩, ⟨"0xA", .Ethereum⟩]
    [⟨"0xA", .Ethereum, JsValue.num 1⟩, ⟨"0xB", .Avalanche, JsValue.str "1.0"⟩] rfl

end CreditSource
